import Mathlib

/-!
# Verification of the particle size distribution model drivers

Shallow embedding of the Crank–Nicolson linearizer, the time-evolution loop
(`evolution_models/case_studies/case_study_06/evol_06.py`) and the
continuity-constrained, VAR(p)-augmented Kalman-filter driver
(`state_identification_case_studies/case_study_12/state_iden_12_main.py`).

Real numbers (numpy floats) are embedded as `ℚ`; numpy arrays become
Mathlib matrices/vectors over `Fin`-indexed types; block slices of flat
arrays (`x[0:N]`, `x[N : N + eta_p * Nc_eta]`, …) become the summands of a
`Sum`/product index type, so `F_evolution[0:N, N:…] = …` assignments into a
zero-initialised array become `Matrix.fromBlocks`.  `np.linalg.inv`, which
raises `LinAlgError` on a singular argument, is embedded as an
`Option`-returning inverse; a raised exception aborting the script is the
`none` case propagating through the (monadic) loop.

Library code imported by the drivers (`GDE_evolution_model`, `GDE_Jacobian`,
`compute_U`, `basic_tools.Kalman_filter`) lives outside the two driver files;
the drivers treat those as opaque callables, and so do we: the evolution map
`eval`, the Jacobian blocks and the matrices returned by `compute_U` are
parameters of the embedded functions, with the spec's stated properties
(`U^T·U = I`, the predict/update equations) taken as hypotheses or modelled
definitions where a claim needs them.
-/

namespace PSD

open Matrix

/-- Embedding of `np.linalg.inv`: returns the inverse of a square rational
matrix, or `none` when the matrix is singular (numpy raises
`numpy.linalg.LinAlgError` in that case, aborting the driver script). -/
def npLinalgInv {n : ℕ} (A : Matrix (Fin n) (Fin n) ℚ) :
    Option (Matrix (Fin n) (Fin n) ℚ) :=
  if A.det = 0 then none else some (A.det⁻¹ • A.adjugate)

end PSD

namespace Evol06

open Matrix

/-!
## Embedding of `evol_06.py`

The driver builds `F : GDE_evolution_model` and `J_F : GDE_Jacobian` from
library code outside the two files; their evaluation maps enter here as the
function parameters `Feval` (for `F.eval`) and `Jac` (for `J_F.eval_d_alpha`).
-/

/-- Embedding of `compute_evolution_operator` (evol_06.py lines 112–118):

    J_star = J_F.eval_d_alpha(alpha_star, t_star)
    F_star = F.eval(alpha_star, t_star) - np.matmul(J_star, alpha_star)
    matrix_multiplier = np.linalg.inv(np.eye(N) - (dt / 2) * J_star)
    F_evolution = np.matmul(matrix_multiplier, (np.eye(N) + (dt / 2) * J_star))
    b_evolution = np.matmul(matrix_multiplier, (dt * F_star))
    return F_evolution, b_evolution
-/
def computeEvolutionOperator (N : ℕ) (dt : ℚ)
    (Feval : (Fin N → ℚ) → ℚ → (Fin N → ℚ))
    (Jac : (Fin N → ℚ) → ℚ → Matrix (Fin N) (Fin N) ℚ)
    (alphaStar : Fin N → ℚ) (tStar : ℚ) :
    Option (Matrix (Fin N) (Fin N) ℚ × (Fin N → ℚ)) :=
  let Jstar := Jac alphaStar tStar
  let Fstar := Feval alphaStar tStar - Jstar.mulVec alphaStar
  (PSD.npLinalgInv (1 - (dt / 2) • Jstar)).map fun mm =>
    (mm * (1 + (dt / 2) • Jstar), mm.mulVec (dt • Fstar))

/-- Embedding of the time-evolution loop (evol_06.py lines 124–129); the
time array satisfies `t[k] = k * dt`.  Each iteration recomputes the affine
pair at the current state `alpha[:, k]` and applies it once:

    for k in tqdm(range(NT - 1)):
        F_evolution, b_evolution = compute_evolution_operator(alpha[:, k], t[k])
        alpha[:, k + 1] = np.matmul(F_evolution, alpha[:, k]) + b_evolution
        t[k + 1] = (k + 1) * dt
-/
def alphaSeq (N : ℕ) (dt : ℚ)
    (Feval : (Fin N → ℚ) → ℚ → (Fin N → ℚ))
    (Jac : (Fin N → ℚ) → ℚ → Matrix (Fin N) (Fin N) ℚ)
    (alpha0 : Fin N → ℚ) : ℕ → Option (Fin N → ℚ)
  | 0 => some alpha0
  | k + 1 =>
    (alphaSeq N dt Feval Jac alpha0 k).bind fun a =>
      (computeEvolutionOperator N dt Feval Jac a ((k : ℚ) * dt)).map fun Fb =>
        Fb.1.mulVec a + Fb.2

end Evol06

namespace Iden12

open Matrix

/-!
## Embedding of `state_iden_12_main.py`

The parameters file `state_iden_12_parameters.py` and the library modules
(`evolution_models.tools`, `basic_tools`) are imported by the driver but are
not part of the two driver files; their contributions enter as the fields of
the parameter bundle `P` below.  Dimensions: `N` (size-distribution degrees
of freedom), `Neta` (= `N_eta`), `Nc` (= `Nc_eta = N_eta - (Ne_eta - 1)`,
driver lines 58–59), `p` (= `eta_p`, the VAR order, ≥ 1), `M` (observation
dimension).  The joint constrained state vector `x_tilde_c` of length
`N + eta_p * Nc_eta` is indexed by `Fin N ⊕ (Fin p × Fin Nc)`: the flat
slice `[0:N]` is the `Sum.inl` part and the slice
`[N + i*Nc : N + (i+1)*Nc]` is the `Sum.inr (i, ·)` part. -/
structure P where
  N : ℕ
  Neta : ℕ
  Nc : ℕ
  p : ℕ
  hp : 0 < p
  M : ℕ
  dt : ℚ
  /-- `F_alpha.eval` on the unconstrained state `[alpha; eta]` (library code,
  opaque to the driver). -/
  Feval : (Fin N ⊕ Fin Neta → ℚ) → ℚ → (Fin N → ℚ)
  /-- `J_F_alpha.eval_d_alpha` (a.k.a. `dF_alpha_d_alpha`). -/
  Jalpha : (Fin N ⊕ Fin Neta → ℚ) → ℚ → Matrix (Fin N) (Fin N) ℚ
  /-- `J_F_alpha.eval_d_eta` (a.k.a. `dF_alpha_d_eta`). -/
  Jeta : (Fin N ⊕ Fin Neta → ℚ) → ℚ → Matrix (Fin N) (Fin Neta) ℚ
  /-- `U_eta`, first return value of `compute_U` (driver line 60). -/
  U : Matrix (Fin Neta) (Fin Nc) ℚ
  /-- The AR coefficient matrices `eta_A[0], …, eta_A[eta_p - 1]` from the
  parameters file. -/
  etaA : Fin p → Matrix (Fin Neta) (Fin Neta) ℚ
  /-- The observation operator `H` (driver lines 173–179); only its first
  `N` columns are populated there, but nothing below depends on that. -/
  Hmat : Matrix (Fin M) (Fin N ⊕ Fin p × Fin Nc) ℚ
  /-- Observations `Y[:, k]`. -/
  Yobs : ℕ → Fin M → ℚ
  /-- Observation noise covariances `Gamma_v[k]` (driver lines 184–188). -/
  Rmat : ℕ → Matrix (Fin M) (Fin M) ℚ

/-- Index type of the joint constrained state `x_tilde_c`. -/
abbrev StateIdx (q : P) := Fin q.N ⊕ Fin q.p × Fin q.Nc

/-- The lag-0 block index of the VAR stack. -/
def lag0 (q : P) : Fin q.p := ⟨0, q.hp⟩

/-- Modelled from the spec: `compute_U` (in `evolution_models.tools`, not
under src/) returns the pair `(U_eta, UT_eta)` where `UT_eta` is the
transpose of `U_eta` ("a null-space matrix `U` (and its transpose `U^T` as
the forward reduction)", spec §4.4).  -/
def UTeta (q : P) : Matrix (Fin q.Nc) (Fin q.Neta) ℚ := q.U.transpose

/-- `U_eta_p` (driver lines 62–66): block-diagonal with `eta_p` copies of
`U_eta`. -/
def UetaP (q : P) : Matrix (Fin q.p × Fin q.Neta) (Fin q.p × Fin q.Nc) ℚ :=
  Matrix.of fun ir js => if ir.1 = js.1 then q.U ir.2 js.2 else 0

/-- `UT_eta_p` (driver lines 62–66): block-diagonal with `eta_p` copies of
`UT_eta`. -/
def UTetaP (q : P) : Matrix (Fin q.p × Fin q.Nc) (Fin q.p × Fin q.Neta) ℚ :=
  Matrix.of fun ir js => if ir.1 = js.1 then UTeta q ir.2 js.2 else 0

/-- `A_eta` (driver lines 72–77): block-companion VAR(p) transition.  The
loop puts `eta_A[i]` in the top block-row at block-column `i` and an
identity block on the sub-diagonal at block `(i+1, i)`; everything else
stays at its zero initialisation. -/
def Aeta (q : P) : Matrix (Fin q.p × Fin q.Neta) (Fin q.p × Fin q.Neta) ℚ :=
  Matrix.of fun ir js =>
    if (ir.1 : ℕ) = 0 then q.etaA js.1 ir.2 js.2
    else if (ir.1 : ℕ) = (js.1 : ℕ) + 1 then (if ir.2 = js.2 then 1 else 0)
    else 0

/-- `B_eta` (driver lines 80–83): `[eta_A[0] + I, eta_A[1], …, eta_A[p-1]]`. -/
def Beta (q : P) : Matrix (Fin q.Neta) (Fin q.p × Fin q.Neta) ℚ :=
  Matrix.of fun r js =>
    q.etaA js.1 r js.2 + (if (js.1 : ℕ) = 0 ∧ r = js.2 then 1 else 0)

/-- `C_eta` (driver lines 86–87): extracts the current (lag-0) state from
the VAR stack. -/
def Ceta (q : P) : Matrix (Fin q.Nc) (Fin q.p × Fin q.Nc) ℚ :=
  Matrix.of fun r js => if (js.1 : ℕ) = 0 ∧ r = js.2 then 1 else 0

/-- The `eta_tilde_c` part of the joint state (flat slice `[N : N + p*Nc]`). -/
def etaPart (q : P) (x : StateIdx q → ℚ) : Fin q.p × Fin q.Nc → ℚ :=
  fun js => x (Sum.inr js)

/-- The unconstrained state `x_star` built inside both
`compute_evolution_operator_Jacobians` (lines 102–111) and
`compute_evolution_operator` (lines 119–126): `alpha` is copied, and
`eta = U_eta · (C_eta · eta_tilde_c)`. -/
def xStarOf (q : P) (x : StateIdx q → ℚ) : Fin q.N ⊕ Fin q.Neta → ℚ :=
  Sum.elim (fun i => x (Sum.inl i))
    (q.U.mulVec ((Ceta q).mulVec (etaPart q x)))

/-- `compute_evolution_operator_Jacobians` (driver lines 101–115): evaluates
both Jacobian blocks at the unconstrained expansion of the current state. -/
def computeEvolutionOperatorJacobians (q : P) (x : StateIdx q → ℚ) (t : ℚ) :
    Matrix (Fin q.N) (Fin q.N) ℚ × Matrix (Fin q.N) (Fin q.Neta) ℚ :=
  (q.Jalpha (xStarOf q x) t, q.Jeta (xStarOf q x) t)

/-- `compute_evolution_operator` (driver lines 118–149).  Mirrors the body:

    F_star = F_alpha.eval(x_star, t_star) - J_alpha_star·alpha_star - J_eta_star·eta_star
    matrix_multiplier = np.linalg.inv(np.eye(N) - (dt / 2) * J_alpha_star)
    F_evol_alpha = matrix_multiplier · (np.eye(N) + (dt / 2) * J_alpha_star)
    F_evol_eta   = matrix_multiplier · ((dt / 2) * J_eta_star) · B_eta · U_eta_p
    F_evolution  = [[F_evol_alpha, F_evol_eta], [0, UT_eta_p · A_eta · U_eta_p]]
    b_evolution  = [matrix_multiplier · (dt * F_star); 0]
-/
def computeEvolutionOperator (q : P) (x : StateIdx q → ℚ) (t : ℚ)
    (JalphaStar : Matrix (Fin q.N) (Fin q.N) ℚ)
    (JetaStar : Matrix (Fin q.N) (Fin q.Neta) ℚ) :
    Option (Matrix (StateIdx q) (StateIdx q) ℚ × (StateIdx q → ℚ)) :=
  let xs := xStarOf q x
  let alphaStar : Fin q.N → ℚ := fun i => xs (Sum.inl i)
  let etaStar : Fin q.Neta → ℚ := fun r => xs (Sum.inr r)
  let Fstar := q.Feval xs t - JalphaStar.mulVec alphaStar - JetaStar.mulVec etaStar
  (PSD.npLinalgInv (1 - (q.dt / 2) • JalphaStar)).map fun mm =>
    let FevolAlpha := mm * (1 + (q.dt / 2) • JalphaStar)
    let FevolEta := mm * ((q.dt / 2) • JetaStar) * Beta q * UetaP q
    (Matrix.fromBlocks FevolAlpha FevolEta 0 (UTetaP q * (Aeta q * UetaP q)),
     Sum.elim (mm.mulVec (q.dt • Fstar)) 0)

/-- `compute_evolution_operator_alpha_covariance` (driver lines 152–164).
Reads the alpha block and the lag-0 eta block of the supplied state noise
covariance, expands the eta block to unconstrained coordinates, and adds the
eta-induced term to the alpha block. -/
def computeEvolutionOperatorAlphaCovariance (q : P)
    (GammaTildeCW : Matrix (StateIdx q) (StateIdx q) ℚ)
    (JalphaStar : Matrix (Fin q.N) (Fin q.N) ℚ)
    (JetaStar : Matrix (Fin q.N) (Fin q.Neta) ℚ) :
    Option (Matrix (Fin q.N) (Fin q.N) ℚ) :=
  let GammaAlphaW : Matrix (Fin q.N) (Fin q.N) ℚ :=
    Matrix.of fun i j => GammaTildeCW (Sum.inl i) (Sum.inl j)
  let GammaEtaCW : Matrix (Fin q.Nc) (Fin q.Nc) ℚ :=
    Matrix.of fun r s => GammaTildeCW (Sum.inr (lag0 q, r)) (Sum.inr (lag0 q, s))
  let GammaEtaW := q.U * (GammaEtaCW * UTeta q)
  (PSD.npLinalgInv (1 - (q.dt / 2) • JalphaStar)).map fun mm =>
    let GammaJacEta := JetaStar * (GammaEtaW * JetaStar.transpose)
    GammaAlphaW + (q.dt ^ 2 / 4) • (mm * (GammaJacEta * mm.transpose))

/-- The in-place slice assignment `model.Gamma_w[0:N, 0:N] = …`
(driver line 276): only the alpha block changes. -/
def setAlphaBlock (q : P) (GW : Matrix (StateIdx q) (StateIdx q) ℚ)
    (A : Matrix (Fin q.N) (Fin q.N) ℚ) : Matrix (StateIdx q) (StateIdx q) ℚ :=
  Matrix.of fun i j =>
    match i, j with
    | Sum.inl i, Sum.inl j => A i j
    | i, j => GW i j

/-- Modelled from the spec: the predict step of `basic_tools.Kalman_filter`
(not under src/): "`mean_predict = F·mean + b`,
`cov_predict = F·cov·F^T + Q`" (spec §4.5; the optional BAE correction, a
collaborator-supplied constant, is not modelled). -/
def kalmanPredict {ι : Type} [Fintype ι] [DecidableEq ι]
    (F : Matrix ι ι ℚ) (b : ι → ℚ) (Q : Matrix ι ι ℚ)
    (m : ι → ℚ) (Pc : Matrix ι ι ℚ) : (ι → ℚ) × Matrix ι ι ℚ :=
  (F.mulVec m + b, F * Pc * F.transpose + Q)

/-- Modelled from the spec: the update step of `basic_tools.Kalman_filter`
(not under src/): "computes the standard Kalman gain, corrects mean and
covariance, using the Joseph or equivalent numerically stable covariance
update"; "a non-invertible innovation covariance during update is fatal for
that step and must be reported" (spec §4.5), hence the `Option`. -/
def kalmanUpdate {ι : Type} [Fintype ι] [DecidableEq ι] {M : ℕ}
    (H : Matrix (Fin M) ι ℚ) (R : Matrix (Fin M) (Fin M) ℚ) (y : Fin M → ℚ)
    (m : ι → ℚ) (Pc : Matrix ι ι ℚ) : Option ((ι → ℚ) × Matrix ι ι ℚ) :=
  (PSD.npLinalgInv (H * Pc * H.transpose + R)).map fun Sinv =>
    let K := Pc * H.transpose * Sinv
    (m + K.mulVec (y - H.mulVec m),
     (1 - K * H) * Pc * (1 - K * H).transpose + K * R * K.transpose)

/-- Per-step filter state: the filtered pair `(x_tilde_c[:, k], Gamma_tilde_c[k])`,
the predicted pair `(x_tilde_c_predict[:, k], Gamma_tilde_c_predict[k])` and
the current (mutated-in-place) process noise covariance `model.Gamma_w`. -/
abbrev FState (q : P) :=
  ((StateIdx q → ℚ) × Matrix (StateIdx q) (StateIdx q) ℚ) ×
  ((StateIdx q → ℚ) × Matrix (StateIdx q) (StateIdx q) ℚ) ×
  Matrix (StateIdx q) (StateIdx q) ℚ

/-- One iteration of the Kalman filter loop (driver lines 272–279):

    J_alpha_star, J_eta_star = compute_evolution_operator_Jacobians(x_tilde_c[:, k], t[k])
    F[k], b[:, k] = compute_evolution_operator(x_tilde_c[:, k], t[k], J_alpha_star, J_eta_star)
    model.F, model.additive_evolution_vector = F[k], b[:, k]
    model.Gamma_w[0:N, 0:N] = compute_evolution_operator_alpha_covariance(model.Gamma_w, J_alpha_star, J_eta_star)
    x_tilde_c_predict[:, k + 1], Gamma_tilde_c_predict[k + 1] = model.predict(x_tilde_c[:, k], Gamma_tilde_c[k], k)
    x_tilde_c[:, k + 1], Gamma_tilde_c[k + 1] = model.update(x_tilde_c_predict[:, k + 1], Gamma_tilde_c_predict[k + 1], Y[:, k + 1], k)
    t[k + 1] = (k + 1) * dt

with `t[k] = k * dt`. -/
def filterStep (q : P) (k : ℕ) (s : FState q) : Option (FState q) :=
  let t : ℚ := (k : ℚ) * q.dt
  let Js := computeEvolutionOperatorJacobians q s.1.1 t
  (computeEvolutionOperator q s.1.1 t Js.1 Js.2).bind fun Fb =>
    (computeEvolutionOperatorAlphaCovariance q s.2.2 Js.1 Js.2).bind fun GWalpha =>
      let GWnext := setAlphaBlock q s.2.2 GWalpha
      let pr := kalmanPredict Fb.1 Fb.2 GWnext s.1.1 s.1.2
      (kalmanUpdate q.Hmat (q.Rmat k) (q.Yobs (k + 1)) pr.1 pr.2).map fun up =>
        ((up.1, up.2), (pr.1, pr.2), GWnext)

/-- The whole filter loop: state after `k` iterations (`none` once any step
has raised). -/
def filterSeq (q : P) (s0 : FState q) : ℕ → Option (FState q)
  | 0 => some s0
  | k + 1 => (filterSeq q s0 k).bind (filterStep q k)

end Iden12

namespace Iden12.C4

/-!
Constructions for the continuity/AR congruence-consistency claim: the prior
reduction (driver lines 224–231), the process-noise reduction (lines
201–203), and the per-step posterior expansion (lines 291–308). -/

/-- `eta_tilde_prior` (driver lines 224, 226–227): `eta_p` stacked copies of
`eta_prior`. -/
def etaTildePrior (q : P) (etaPrior : Fin q.Neta → ℚ) : Fin q.p × Fin q.Neta → ℚ :=
  fun js => etaPrior js.2

/-- `Gamma_eta_tilde_prior` (driver lines 225, 228): block-diagonal copies of
`Gamma_eta_prior`. -/
def GammaEtaTildePrior (q : P) (G : Matrix (Fin q.Neta) (Fin q.Neta) ℚ) :
    Matrix (Fin q.p × Fin q.Neta) (Fin q.p × Fin q.Neta) ℚ :=
  Matrix.of fun ir js => if ir.1 = js.1 then G ir.2 js.2 else 0

/-- `eta_tilde_c_prior = np.matmul(UT_eta_p, eta_tilde_prior)` (line 230). -/
def etaTildeCPrior (q : P) (etaPrior : Fin q.Neta → ℚ) : Fin q.p × Fin q.Nc → ℚ :=
  (UTetaP q).mulVec (etaTildePrior q etaPrior)

/-- `Gamma_eta_tilde_c_prior = np.matmul(UT_eta_p, np.matmul(Gamma_eta_tilde_prior, U_eta_p))`
(line 231). -/
def GammaEtaTildeCPrior (q : P) (G : Matrix (Fin q.Neta) (Fin q.Neta) ℚ) :
    Matrix (Fin q.p × Fin q.Nc) (Fin q.p × Fin q.Nc) ℚ :=
  UTetaP q * (GammaEtaTildePrior q G * UetaP q)

/-- `Gamma_eta_tilde_w` (lines 201–202): only the lag-0 diagonal block is
`Gamma_eta_w`, the rest stays zero. -/
def GammaEtaTildeW (q : P) (G : Matrix (Fin q.Neta) (Fin q.Neta) ℚ) :
    Matrix (Fin q.p × Fin q.Neta) (Fin q.p × Fin q.Neta) ℚ :=
  Matrix.of fun ir js =>
    if (ir.1 : ℕ) = 0 ∧ (js.1 : ℕ) = 0 then G ir.2 js.2 else 0

/-- `Gamma_eta_tilde_c_w = np.matmul(UT_eta_p, np.matmul(Gamma_eta_tilde_w, U_eta_p))`
(line 203). -/
def GammaEtaTildeCW (q : P) (G : Matrix (Fin q.Neta) (Fin q.Neta) ℚ) :
    Matrix (Fin q.p × Fin q.Nc) (Fin q.p × Fin q.Nc) ℚ :=
  UTetaP q * (GammaEtaTildeW q G * UetaP q)

/-- The `eta_c` slice of a posterior state: `x_c[N : N + Nc_eta] =
x_tilde_c[N : N + Nc_eta]` (line 295), i.e. the lag-0 block. -/
def xCEtaOf (q : P) (xt : StateIdx q → ℚ) : Fin q.Nc → ℚ :=
  fun r => xt (Sum.inr (lag0 q, r))

/-- `eta = np.matmul(U_eta, x_c[N : N + Nc_eta])` (line 306). -/
def xEtaOf (q : P) (xt : StateIdx q → ℚ) : Fin q.Neta → ℚ :=
  q.U.mulVec (xCEtaOf q xt)

/-- The `eta_c` diagonal block of a posterior covariance (line 297). -/
def GammaCEtaOf (q : P) (G : Matrix (StateIdx q) (StateIdx q) ℚ) :
    Matrix (Fin q.Nc) (Fin q.Nc) ℚ :=
  Matrix.of fun r s => G (Sum.inr (lag0 q, r)) (Sum.inr (lag0 q, s))

/-- `Gamma[k, N:, N:] = np.matmul(U_eta, np.matmul(Gamma_c[...], UT_eta))`
(line 308). -/
def GammaEtaOf (q : P) (G : Matrix (StateIdx q) (StateIdx q) ℚ) :
    Matrix (Fin q.Neta) (Fin q.Neta) ℚ :=
  q.U * (GammaCEtaOf q G * UTeta q)

end Iden12.C4

namespace Iden12

/-- The alpha diagonal block `GW[0:N, 0:N]` of a joint covariance. -/
def alphaBlockOf (q : P) (G : Matrix (StateIdx q) (StateIdx q) ℚ) :
    Matrix (Fin q.N) (Fin q.N) ℚ :=
  Matrix.of fun i j => G (Sum.inl i) (Sum.inl j)

/-- `num_constraints_eta = Ne_eta - 1` (driver line 58). -/
def numConstraintsEta (NeEta : ℕ) : ℕ := NeEta - 1

/-- `Nc_eta = N_eta - num_constraints_eta` (driver line 59). -/
def NcEta (Neta NeEta : ℕ) : ℕ := Neta - numConstraintsEta NeEta

/-- Modelled from the spec: the defining property of the matrix `U_eta`
returned by `compute_U` (in `evolution_models.tools`, not under src/):
"`U` has full column rank and `U^T · U = I` (orthonormal null-space basis
enforcing inter-element continuity of the discretized rate function)"
(spec §3). -/
def IsContinuityU {Neta Nc : ℕ} (U : Matrix (Fin Neta) (Fin Nc) ℚ) : Prop :=
  U.transpose * U = 1

end Iden12

namespace Wit

/-! Concrete instances used by the witness theorems. -/

/-- Constant-zero evolution map on a one-dimensional state. -/
def f0 : (Fin 1 → ℚ) → ℚ → (Fin 1 → ℚ) := fun _ _ => 0

/-- Constant-zero Jacobian on a one-dimensional state. -/
def j0 : (Fin 1 → ℚ) → ℚ → Matrix (Fin 1) (Fin 1) ℚ := fun _ _ => 0

/-- Constant-identity Jacobian on a one-dimensional state. -/
def j1 : (Fin 1 → ℚ) → ℚ → Matrix (Fin 1) (Fin 1) ℚ := fun _ _ => 1

/-- An all-trivial parameter bundle (dimensions 1, `dt = 0`). -/
def qA : Iden12.P where
  N := 1
  Neta := 1
  Nc := 1
  p := 1
  hp := one_pos
  M := 1
  dt := 0
  Feval := fun _ _ => 0
  Jalpha := fun _ _ => 0
  Jeta := fun _ _ => 0
  U := 1
  etaA := fun _ => 0
  Hmat := 0
  Yobs := fun _ _ => 0
  Rmat := fun _ => 1

/-- Like `qA` but with `dt = 2`, so that `I - (dt/2)·J` is singular at the
identity Jacobian. -/
def qB : Iden12.P where
  N := 1
  Neta := 1
  Nc := 1
  p := 1
  hp := one_pos
  M := 1
  dt := 2
  Feval := fun _ _ => 0
  Jalpha := fun _ _ => 1
  Jeta := fun _ _ => 0
  U := 1
  etaA := fun _ => 0
  Hmat := 0
  Yobs := fun _ _ => 0
  Rmat := fun _ => 1

/-- Like `qA` but with VAR order `p = 2`, to exhibit the companion shift. -/
def qC : Iden12.P where
  N := 1
  Neta := 1
  Nc := 1
  p := 2
  hp := two_pos
  M := 1
  dt := 0
  Feval := fun _ _ => 0
  Jalpha := fun _ _ => 0
  Jeta := fun _ _ => 0
  U := 1
  etaA := fun _ => 0
  Hmat := 0
  Yobs := fun _ _ => 0
  Rmat := fun _ => 1

/-- The all-zero initial filter state for `qA`. -/
def s00 : Iden12.FState qA := ((0, 0), (0, 0), 0)

/-- An orthonormal single-column continuity matrix for `N_eta = 2`,
`Ne_eta = 2` (so `Nc_eta = 1`). -/
def U21 : Matrix (Fin 2) (Fin 1) ℚ :=
  Matrix.of fun i _ => if i = 0 then 1 else 0

/-- A sample VAR stack for `qC` whose entries record their lag index. -/
def xC : Fin (Wit.qC).p × Fin (Wit.qC).Neta → ℚ := fun js => ((js.1 : ℕ) : ℚ)

end Wit

/-!
## Helper theorems
-/

namespace PSD

theorem npLinalgInv_of_det_ne_zero {n : ℕ} (A : Matrix (Fin n) (Fin n) ℚ)
    (h : A.det ≠ 0) : npLinalgInv A = some A⁻¹ := by
  rw [npLinalgInv, if_neg h, Matrix.inv_def, Ring.inverse_eq_inv]

theorem npLinalgInv_of_det_eq_zero {n : ℕ} (A : Matrix (Fin n) (Fin n) ℚ)
    (h : A.det = 0) : npLinalgInv A = none := by
  rw [npLinalgInv, if_pos h]

end PSD

namespace Evol06

open Matrix

/-- Closed form of the evol_06 linearizer on a nonsingular step, with the
multiplier exhibited as the genuine matrix inverse. -/
theorem computeEvolutionOperator06_eq_some (N : ℕ) (dt : ℚ)
    (Feval : (Fin N → ℚ) → ℚ → (Fin N → ℚ))
    (Jac : (Fin N → ℚ) → ℚ → Matrix (Fin N) (Fin N) ℚ)
    (a : Fin N → ℚ) (t : ℚ) (h : (1 - (dt / 2) • Jac a t).det ≠ 0) :
    computeEvolutionOperator N dt Feval Jac a t =
      some ((1 - (dt / 2) • Jac a t)⁻¹ * (1 + (dt / 2) • Jac a t),
            (1 - (dt / 2) • Jac a t)⁻¹.mulVec
              (dt • (Feval a t - (Jac a t).mulVec a))) := by
  simp [computeEvolutionOperator, PSD.npLinalgInv_of_det_ne_zero _ h]

/-- Once a step fails (singular inversion), the run stays aborted: `none`
propagates through every later step. -/
theorem alphaSeq_none_propagates (N : ℕ) (dt : ℚ)
    (Feval : (Fin N → ℚ) → ℚ → (Fin N → ℚ))
    (Jac : (Fin N → ℚ) → ℚ → Matrix (Fin N) (Fin N) ℚ)
    (alpha0 : Fin N → ℚ) (k : ℕ) (h : alphaSeq N dt Feval Jac alpha0 k = none) :
    ∀ j, k ≤ j → alphaSeq N dt Feval Jac alpha0 j = none := by
  intro j hj
  induction j with
  | zero => exact (Nat.le_zero.mp hj) ▸ h
  | succ m ih =>
    rcases Nat.lt_or_ge k (m + 1) with hlt | hge
    · have hm : alphaSeq N dt Feval Jac alpha0 m = none :=
        ih (Nat.le_of_lt_succ hlt)
      rw [alphaSeq, hm]
      rfl
    · have : k = m + 1 := Nat.le_antisymm hj hge
      exact this ▸ h

end Evol06

namespace Iden12

open Matrix

/-- `UT_eta_p` is the transpose of `U_eta_p` (blockwise transposition). -/
theorem UTetaP_eq_transpose (q : P) : UTetaP q = (UetaP q).transpose := by
  ext ir js
  rcases ir with ⟨i, r⟩
  rcases js with ⟨j, s⟩
  by_cases h : i = j
  · subst h
    simp [UTetaP, UetaP, UTeta]
  · simp [UTetaP, UetaP, UTeta, h, Ne.symm h]

/-- Closed form of the joint linearizer on a nonsingular step. -/
theorem computeEvolutionOperator12_eq_some (q : P) (x : StateIdx q → ℚ) (t : ℚ)
    (Ja : Matrix (Fin q.N) (Fin q.N) ℚ) (Je : Matrix (Fin q.N) (Fin q.Neta) ℚ)
    (h : (1 - (q.dt / 2) • Ja).det ≠ 0) :
    computeEvolutionOperator q x t Ja Je =
      some (Matrix.fromBlocks
              ((1 - (q.dt / 2) • Ja)⁻¹ * (1 + (q.dt / 2) • Ja))
              ((1 - (q.dt / 2) • Ja)⁻¹ * ((q.dt / 2) • Je) * Beta q * UetaP q)
              0 (UTetaP q * (Aeta q * UetaP q)),
            Sum.elim
              ((1 - (q.dt / 2) • Ja)⁻¹.mulVec
                (q.dt • (q.Feval (xStarOf q x) t
                  - Ja.mulVec (fun i => xStarOf q x (Sum.inl i))
                  - Je.mulVec (fun r => xStarOf q x (Sum.inr r))))) 0) := by
  simp [computeEvolutionOperator, PSD.npLinalgInv_of_det_ne_zero _ h]

/-- Closed form of the per-step alpha process-noise covariance update on a
nonsingular step. -/
theorem computeEvolutionOperatorAlphaCovariance_eq_some (q : P)
    (GW : Matrix (StateIdx q) (StateIdx q) ℚ)
    (Ja : Matrix (Fin q.N) (Fin q.N) ℚ) (Je : Matrix (Fin q.N) (Fin q.Neta) ℚ)
    (h : (1 - (q.dt / 2) • Ja).det ≠ 0) :
    computeEvolutionOperatorAlphaCovariance q GW Ja Je =
      some (alphaBlockOf q GW +
            (q.dt ^ 2 / 4) •
              ((1 - (q.dt / 2) • Ja)⁻¹ *
                ((Je * ((q.U * (C4.GammaCEtaOf q GW * UTeta q)) * Je.transpose)) *
                  ((1 - (q.dt / 2) • Ja)⁻¹).transpose))) := by
  simp only [computeEvolutionOperatorAlphaCovariance,
    PSD.npLinalgInv_of_det_ne_zero _ h, Option.map_some']
  rfl

/-- Any successful filter step decomposes into its four stages. -/
theorem filterStep_some_elim (q : P) (k : ℕ) (s s' : FState q)
    (h : filterStep q k s = some s') :
    ∃ Fb GWalpha up,
      computeEvolutionOperator q s.1.1 ((k : ℚ) * q.dt)
          (computeEvolutionOperatorJacobians q s.1.1 ((k : ℚ) * q.dt)).1
          (computeEvolutionOperatorJacobians q s.1.1 ((k : ℚ) * q.dt)).2 = some Fb ∧
      computeEvolutionOperatorAlphaCovariance q s.2.2
          (computeEvolutionOperatorJacobians q s.1.1 ((k : ℚ) * q.dt)).1
          (computeEvolutionOperatorJacobians q s.1.1 ((k : ℚ) * q.dt)).2 = some GWalpha ∧
      kalmanUpdate q.Hmat (q.Rmat k) (q.Yobs (k + 1))
          (Fb.1.mulVec s.1.1 + Fb.2)
          (Fb.1 * s.1.2 * Fb.1.transpose + setAlphaBlock q s.2.2 GWalpha) = some up ∧
      s' = ((up.1, up.2),
            (Fb.1.mulVec s.1.1 + Fb.2,
             Fb.1 * s.1.2 * Fb.1.transpose + setAlphaBlock q s.2.2 GWalpha),
            setAlphaBlock q s.2.2 GWalpha) := by
  simp only [filterStep, kalmanPredict] at h
  rcases Option.bind_eq_some.mp h with ⟨Fb, hFb, h2⟩
  rcases Option.bind_eq_some.mp h2 with ⟨GA, hGA, h3⟩
  rcases Option.map_eq_some'.mp h3 with ⟨up, hup, hs'⟩
  exact ⟨Fb, GA, up, hFb, hGA, hup, hs'.symm⟩

/-- The filter loop never touches the eta rows or columns of the in-place
mutated `model.Gamma_w`. -/
theorem filterSeq_GW_offAlpha (q : P) (s0 : FState q) (k : ℕ) (s : FState q)
    (h : filterSeq q s0 k = some s) :
    (∀ (ii : Fin q.p × Fin q.Nc) (j : StateIdx q),
        s.2.2 (Sum.inr ii) j = s0.2.2 (Sum.inr ii) j) ∧
    (∀ (i : StateIdx q) (jj : Fin q.p × Fin q.Nc),
        s.2.2 i (Sum.inr jj) = s0.2.2 i (Sum.inr jj)) := by
  induction k generalizing s with
  | zero =>
    obtain rfl : s0 = s := Option.some.inj h
    exact ⟨fun _ _ => rfl, fun _ _ => rfl⟩
  | succ m ih =>
    rw [filterSeq] at h
    rcases Option.bind_eq_some.mp h with ⟨sm, hsm, hstep⟩
    obtain ⟨Fb, GA, up, -, -, -, rfl⟩ := filterStep_some_elim q m sm s hstep
    refine ⟨fun ii j => ?_, fun i jj => ?_⟩
    · have hm := (ih sm hsm).1 ii j
      simpa [setAlphaBlock] using hm
    · have hm := (ih sm hsm).2 i jj
      cases i with
      | inl a => simpa [setAlphaBlock] using hm
      | inr b => simpa [setAlphaBlock] using hm

end Iden12

namespace Iden12

open Matrix

/-- Applying the companion matrix `A_eta` shifts every lag block `i ≥ 1`
down from block `i - 1`. -/
theorem Aeta_mulVec_shift (q : P) (x : Fin q.p × Fin q.Neta → ℚ)
    (i : Fin q.p) (hi : 1 ≤ (i : ℕ)) (r : Fin q.Neta) :
    (Aeta q).mulVec x (i, r) =
      x (⟨(i : ℕ) - 1, Nat.lt_of_le_of_lt (Nat.sub_le _ _) i.isLt⟩, r) := by
  classical
  have hne : ¬((i : ℕ) = 0) := Nat.one_le_iff_ne_zero.mp hi
  set j0 : Fin q.p := ⟨(i : ℕ) - 1, Nat.lt_of_le_of_lt (Nat.sub_le _ _) i.isLt⟩ with hj0
  have hsum : (Aeta q).mulVec x (i, r) =
      ∑ js : Fin q.p × Fin q.Neta, Aeta q (i, r) js * x js := rfl
  rw [hsum, Fintype.sum_prod_type]
  rw [Finset.sum_eq_single j0]
  · have hij0 : (i : ℕ) = (j0 : ℕ) + 1 := by
      simp only [hj0]
      omega
    have hentry : ∀ s : Fin q.Neta,
        Aeta q (i, r) (j0, s) * x (j0, s) = if r = s then x (j0, s) else 0 := by
      intro s
      simp only [Aeta, Matrix.of_apply]
      rw [if_neg hne, if_pos hij0, ite_mul, one_mul, zero_mul]
    rw [Finset.sum_congr rfl fun s _ => hentry s]
    simp
  · intro j _ hj
    have hij : ¬((i : ℕ) = (j : ℕ) + 1) := by
      intro hc
      apply hj
      apply Fin.ext
      simp only [hj0]
      omega
    apply Finset.sum_eq_zero
    intro s _
    simp only [Aeta, Matrix.of_apply]
    rw [if_neg hne, if_neg hij, zero_mul]
  · intro hmem
    exact absurd (Finset.mem_univ j0) hmem

end Iden12

/-!
## Claim theorems
-/

open Matrix

/-- **C1.** For every state `x_k` and time `t_k`, the Crank–Nicolson
linearizer returns the affine pair `F_evolution = M·(I + (dt/2)·J)` and
`b_evolution = M·(dt·bias)`, where `J` is the alpha-block Jacobian evaluated
at `(x_k, t_k)`, `bias = eval(x_k, t_k) − J·x_k` (minus `J_eta·eta_k` when a
parameter block is present), and `M = (I − (dt/2)·J)⁻¹` — a genuine
two-sided inverse — built from the alpha-block Jacobian only. -/
theorem claim_C1_crank_nicolson_affine_pair
    (N : ℕ) (dt : ℚ) (Feval : (Fin N → ℚ) → ℚ → (Fin N → ℚ))
    (Jac : (Fin N → ℚ) → ℚ → Matrix (Fin N) (Fin N) ℚ)
    (a : Fin N → ℚ) (t : ℚ)
    (q : Iden12.P) (x : Iden12.StateIdx q → ℚ) (t2 : ℚ)
    (h06 : (1 - (dt / 2) • Jac a t).det ≠ 0)
    (h12 : (1 - (q.dt / 2) •
        (Iden12.computeEvolutionOperatorJacobians q x t2).1).det ≠ 0) :
    (Evol06.computeEvolutionOperator N dt Feval Jac a t =
       some ((1 - (dt / 2) • Jac a t)⁻¹ * (1 + (dt / 2) • Jac a t),
             (1 - (dt / 2) • Jac a t)⁻¹.mulVec
               (dt • (Feval a t - (Jac a t).mulVec a))) ∧
     (1 - (dt / 2) • Jac a t) * (1 - (dt / 2) • Jac a t)⁻¹ = 1 ∧
     (1 - (dt / 2) • Jac a t)⁻¹ * (1 - (dt / 2) • Jac a t) = 1) ∧
    (((Iden12.computeEvolutionOperator q x t2
         (Iden12.computeEvolutionOperatorJacobians q x t2).1
         (Iden12.computeEvolutionOperatorJacobians q x t2).2).map
           fun Fb => Fb.1.toBlocks₁₁) =
       some ((1 - (q.dt / 2) • (Iden12.computeEvolutionOperatorJacobians q x t2).1)⁻¹ *
             (1 + (q.dt / 2) • (Iden12.computeEvolutionOperatorJacobians q x t2).1)) ∧
     ((Iden12.computeEvolutionOperator q x t2
         (Iden12.computeEvolutionOperatorJacobians q x t2).1
         (Iden12.computeEvolutionOperatorJacobians q x t2).2).map Prod.snd) =
       some (Sum.elim
         ((1 - (q.dt / 2) • (Iden12.computeEvolutionOperatorJacobians q x t2).1)⁻¹.mulVec
           (q.dt • (q.Feval (Iden12.xStarOf q x) t2
             - (Iden12.computeEvolutionOperatorJacobians q x t2).1.mulVec
                 (fun i => Iden12.xStarOf q x (Sum.inl i))
             - (Iden12.computeEvolutionOperatorJacobians q x t2).2.mulVec
                 (fun r => Iden12.xStarOf q x (Sum.inr r))))) 0) ∧
     (1 - (q.dt / 2) • (Iden12.computeEvolutionOperatorJacobians q x t2).1) *
       (1 - (q.dt / 2) • (Iden12.computeEvolutionOperatorJacobians q x t2).1)⁻¹ = 1 ∧
     (1 - (q.dt / 2) • (Iden12.computeEvolutionOperatorJacobians q x t2).1)⁻¹ *
       (1 - (q.dt / 2) • (Iden12.computeEvolutionOperatorJacobians q x t2).1) = 1) := by
  refine ⟨⟨Evol06.computeEvolutionOperator06_eq_some N dt Feval Jac a t h06,
           Matrix.mul_nonsing_inv _ (isUnit_iff_ne_zero.mpr h06),
           Matrix.nonsing_inv_mul _ (isUnit_iff_ne_zero.mpr h06)⟩,
         ?_, ?_,
         Matrix.mul_nonsing_inv _ (isUnit_iff_ne_zero.mpr h12),
         Matrix.nonsing_inv_mul _ (isUnit_iff_ne_zero.mpr h12)⟩
  · rw [Iden12.computeEvolutionOperator12_eq_some q x t2 _ _ h12]
    simp [Matrix.toBlocks_fromBlocks₁₁]
  · rw [Iden12.computeEvolutionOperator12_eq_some q x t2 _ _ h12]
    simp

/-- Witness for C1: a one-dimensional zero model with `dt = 1` (and the
bundle `Wit.qA` for the joint part) satisfies both nonsingularity
hypotheses, and the linearizer output is as claimed. -/
theorem claim_C1_witness :
    ((1 : Matrix (Fin 1) (Fin 1) ℚ) - ((1 : ℚ) / 2) • Wit.j0 0 0).det ≠ 0 ∧
    Evol06.computeEvolutionOperator 1 1 Wit.f0 Wit.j0 0 0 =
      some ((1 - ((1 : ℚ) / 2) • Wit.j0 0 0)⁻¹ * (1 + ((1 : ℚ) / 2) • Wit.j0 0 0),
            (1 - ((1 : ℚ) / 2) • Wit.j0 0 0)⁻¹.mulVec
              ((1 : ℚ) • (Wit.f0 0 0 - (Wit.j0 0 0).mulVec 0))) :=
  ⟨by simp [Wit.j0],
   (claim_C1_crank_nicolson_affine_pair 1 1 Wit.f0 Wit.j0 0 0 Wit.qA 0 0
     (by simp [Wit.j0])
     (by simp [Iden12.computeEvolutionOperatorJacobians, Wit.qA])).1.1⟩

/-- **C2.** When an unknown parameter block is present, the joint per-step
evolution matrix has its alpha–eta off-diagonal block equal to
`M·(dt/2)·J_eta` right-multiplied by the autoregressive transform `B_eta`
and the continuity expansion `U_eta_p`, and its parameter rows equal to the
continuity-reduced companion matrix `UT_eta_p·A_eta·U_eta_p` (with zero
eta–alpha block), so one matrix propagates both blocks jointly per step. -/
theorem claim_C2_joint_evolution_block_structure
    (q : Iden12.P) (x : Iden12.StateIdx q → ℚ) (t : ℚ)
    (Ja : Matrix (Fin q.N) (Fin q.N) ℚ) (Je : Matrix (Fin q.N) (Fin q.Neta) ℚ)
    (h : (1 - (q.dt / 2) • Ja).det ≠ 0) :
    ((Iden12.computeEvolutionOperator q x t Ja Je).map fun Fb => Fb.1.toBlocks₁₂) =
      some ((1 - (q.dt / 2) • Ja)⁻¹ * ((q.dt / 2) • Je) *
            Iden12.Beta q * Iden12.UetaP q) ∧
    ((Iden12.computeEvolutionOperator q x t Ja Je).map fun Fb => Fb.1.toBlocks₂₂) =
      some (Iden12.UTetaP q * (Iden12.Aeta q * Iden12.UetaP q)) ∧
    ((Iden12.computeEvolutionOperator q x t Ja Je).map fun Fb => Fb.1.toBlocks₂₁) =
      some 0 := by
  rw [Iden12.computeEvolutionOperator12_eq_some q x t Ja Je h]
  refine ⟨?_, ?_, ?_⟩ <;> simp

/-- Witness for C2: the trivial joint bundle `Wit.qA` with zero Jacobian
blocks satisfies the nonsingularity hypothesis, and the parameter rows of
the returned matrix are the continuity-reduced companion matrix. -/
theorem claim_C2_witness :
    ((1 : Matrix (Fin 1) (Fin 1) ℚ) - ((Wit.qA).dt / 2) • (0 : Matrix (Fin 1) (Fin 1) ℚ)).det ≠ 0 ∧
    ((Iden12.computeEvolutionOperator Wit.qA 0 0 0 0).map fun Fb => Fb.1.toBlocks₂₂) =
      some (Iden12.UTetaP Wit.qA * (Iden12.Aeta Wit.qA * Iden12.UetaP Wit.qA)) :=
  ⟨by simp,
   (claim_C2_joint_evolution_block_structure Wit.qA 0 0 0 0 (by simp)).2.1⟩

/-- **C9.** For every step, the additive evolution vector returned by the
joint-state linearizer vanishes on the entire parameter block, so the
parameter stack evolves purely under the linear map
`UT_eta_p·A_eta·U_eta_p` with no bias contribution. -/
theorem claim_C9_zero_bias_on_parameter_block
    (q : Iden12.P) (x : Iden12.StateIdx q → ℚ) (t : ℚ)
    (Ja : Matrix (Fin q.N) (Fin q.N) ℚ) (Je : Matrix (Fin q.N) (Fin q.Neta) ℚ)
    (h : (1 - (q.dt / 2) • Ja).det ≠ 0) :
    ((Iden12.computeEvolutionOperator q x t Ja Je).map
        fun Fb => fun jj : Fin q.p × Fin q.Nc => Fb.2 (Sum.inr jj)) = some 0 ∧
    ((Iden12.computeEvolutionOperator q x t Ja Je).map
        fun Fb => fun jj : Fin q.p × Fin q.Nc => (Fb.1.mulVec x + Fb.2) (Sum.inr jj)) =
      some ((Iden12.UTetaP q * (Iden12.Aeta q * Iden12.UetaP q)).mulVec
              (Iden12.etaPart q x)) := by
  rw [Iden12.computeEvolutionOperator12_eq_some q x t Ja Je h]
  have hx : x = Sum.elim (fun i => x (Sum.inl i)) (Iden12.etaPart q x) := by
    funext i
    cases i <;> rfl
  refine ⟨rfl, ?_⟩
  simp only [Option.map_some']
  congr 1
  funext jj
  rw [show (Matrix.fromBlocks
        ((1 - (q.dt / 2) • Ja)⁻¹ * (1 + (q.dt / 2) • Ja))
        ((1 - (q.dt / 2) • Ja)⁻¹ * ((q.dt / 2) • Je) * Iden12.Beta q * Iden12.UetaP q)
        0 (Iden12.UTetaP q * (Iden12.Aeta q * Iden12.UetaP q))).mulVec x =
      (Matrix.fromBlocks
        ((1 - (q.dt / 2) • Ja)⁻¹ * (1 + (q.dt / 2) • Ja))
        ((1 - (q.dt / 2) • Ja)⁻¹ * ((q.dt / 2) • Je) * Iden12.Beta q * Iden12.UetaP q)
        0 (Iden12.UTetaP q * (Iden12.Aeta q * Iden12.UetaP q))).mulVec
        (Sum.elim (fun i => x (Sum.inl i)) (Iden12.etaPart q x)) from by rw [← hx]]
  rw [Matrix.fromBlocks_mulVec]
  simp

/-- Witness for C9: at the trivial joint bundle the parameter block of the
additive evolution vector is zero. -/
theorem claim_C9_witness :
    ((1 : Matrix (Fin 1) (Fin 1) ℚ) - ((Wit.qA).dt / 2) • (1 : Matrix (Fin 1) (Fin 1) ℚ)).det ≠ 0 ∧
    ((Iden12.computeEvolutionOperator Wit.qA 0 0 1 0).map
        fun Fb => fun jj : Fin 1 × Fin 1 => Fb.2 (Sum.inr jj)) = some 0 :=
  ⟨by simp [Wit.qA],
   (claim_C9_zero_bias_on_parameter_block Wit.qA 0 0 1 0 (by simp [Wit.qA])).1⟩

namespace Iden12

/-- The joint linearizer raises on a singular implicit half-step matrix. -/
theorem computeEvolutionOperator12_none (q : P) (x : StateIdx q → ℚ) (t : ℚ)
    (Ja : Matrix (Fin q.N) (Fin q.N) ℚ) (Je : Matrix (Fin q.N) (Fin q.Neta) ℚ)
    (h : (1 - (q.dt / 2) • Ja).det = 0) :
    computeEvolutionOperator q x t Ja Je = none := by
  simp [computeEvolutionOperator, PSD.npLinalgInv_of_det_eq_zero _ h]

/-- Once a filter step fails, the run stays aborted. -/
theorem filterSeq_none_propagates (q : P) (s0 : FState q) (m : ℕ)
    (h : filterSeq q s0 m = none) :
    ∀ j, m ≤ j → filterSeq q s0 j = none := by
  intro j hj
  induction j with
  | zero => exact (Nat.le_zero.mp hj) ▸ h
  | succ n ih =>
    rcases Nat.lt_or_ge m (n + 1) with hlt | hge
    · have hn : filterSeq q s0 n = none := ih (Nat.le_of_lt_succ hlt)
      rw [filterSeq, hn]
      rfl
    · have : m = n + 1 := Nat.le_antisymm hj hge
      exact this ▸ h

end Iden12

/-- **C3.** At every time step `k` the affine transition is recomputed from
the Jacobian evaluated at the current estimate `x_k` (the previous filtered
state), never at the predicted or future state, and the next state is
`x_{k+1} = F_evolution·x_k + b_evolution` — a single affine application,
with no inner Newton iteration within a step.  (In the filter loop the
corresponding fact is that the step-`k` prediction equals `F·x_k + b` for
the pair computed from the Jacobians at `x_k`.) -/
theorem claim_C3_linearization_at_current_estimate
    (N : ℕ) (dt : ℚ) (Feval : (Fin N → ℚ) → ℚ → (Fin N → ℚ))
    (Jac : (Fin N → ℚ) → ℚ → Matrix (Fin N) (Fin N) ℚ)
    (alpha0 : Fin N → ℚ) (k : ℕ) (a : Fin N → ℚ)
    (hk : Evol06.alphaSeq N dt Feval Jac alpha0 k = some a)
    (hdet : (1 - (dt / 2) • Jac a ((k : ℚ) * dt)).det ≠ 0)
    (q : Iden12.P) (s0 : Iden12.FState q) (m : ℕ) (s : Iden12.FState q)
    (hm : Iden12.filterSeq q s0 m = some s) :
    Evol06.alphaSeq N dt Feval Jac alpha0 (k + 1) =
      some (((1 - (dt / 2) • Jac a ((k : ℚ) * dt))⁻¹ *
             (1 + (dt / 2) • Jac a ((k : ℚ) * dt))).mulVec a +
            (1 - (dt / 2) • Jac a ((k : ℚ) * dt))⁻¹.mulVec
              (dt • (Feval a ((k : ℚ) * dt) -
                     (Jac a ((k : ℚ) * dt)).mulVec a))) ∧
    Iden12.filterSeq q s0 (m + 1) =
      (Iden12.filterSeq q s0 m).bind (Iden12.filterStep q m) ∧
    (∀ s', Iden12.filterStep q m s = some s' →
       Iden12.filterSeq q s0 (m + 1) = some s' ∧
       some s'.2.1.1 =
         (Iden12.computeEvolutionOperator q s.1.1 ((m : ℚ) * q.dt)
             (Iden12.computeEvolutionOperatorJacobians q s.1.1 ((m : ℚ) * q.dt)).1
             (Iden12.computeEvolutionOperatorJacobians q s.1.1 ((m : ℚ) * q.dt)).2).map
           (fun Fb => Fb.1.mulVec s.1.1 + Fb.2)) := by
  refine ⟨?_, rfl, ?_⟩
  · rw [Evol06.alphaSeq, hk, Option.some_bind,
      Evol06.computeEvolutionOperator06_eq_some N dt Feval Jac a _ hdet,
      Option.map_some']
  · intro s' hs'
    constructor
    · rw [Iden12.filterSeq, hm, Option.some_bind]
      exact hs'
    · obtain ⟨Fb, GA, up, hFb, hGA, hup, rfl⟩ :=
        Iden12.filterStep_some_elim q m s s' hs'
      rw [hFb, Option.map_some']

/-- Witness for C3: the trivial one-dimensional models satisfy the loop and
nonsingularity hypotheses, and both loop recurrences hold there. -/
theorem claim_C3_witness :
    Evol06.alphaSeq 1 1 Wit.f0 Wit.j0 0 0 = some 0 ∧
    Iden12.filterSeq Wit.qA Wit.s00 1 =
      (Iden12.filterSeq Wit.qA Wit.s00 0).bind (Iden12.filterStep Wit.qA 0) :=
  ⟨rfl,
   (claim_C3_linearization_at_current_estimate 1 1 Wit.f0 Wit.j0 0 0 0 rfl
     (by simp [Wit.j0]) Wit.qA Wit.s00 0 Wit.s00 rfl).2.1⟩

/-- **C7.** If `(I − (dt/2)·J)` is singular at any step, the linearization
fails and the condition is surfaced as an error aborting the run (the
`np.linalg.inv` exception, i.e. `none`); it is never silently replaced by a
pseudo-inverse or otherwise masked. -/
theorem claim_C7_singular_linearization_aborts
    (N : ℕ) (dt : ℚ) (Feval : (Fin N → ℚ) → ℚ → (Fin N → ℚ))
    (Jac : (Fin N → ℚ) → ℚ → Matrix (Fin N) (Fin N) ℚ)
    (alpha0 : Fin N → ℚ) (k : ℕ) (a : Fin N → ℚ)
    (hk : Evol06.alphaSeq N dt Feval Jac alpha0 k = some a)
    (h06 : (1 - (dt / 2) • Jac a ((k : ℚ) * dt)).det = 0)
    (q : Iden12.P) (x : Iden12.StateIdx q → ℚ) (t : ℚ)
    (Ja : Matrix (Fin q.N) (Fin q.N) ℚ) (Je : Matrix (Fin q.N) (Fin q.Neta) ℚ)
    (h12 : (1 - (q.dt / 2) • Ja).det = 0) :
    Evol06.computeEvolutionOperator N dt Feval Jac a ((k : ℚ) * dt) = none ∧
    Iden12.computeEvolutionOperator q x t Ja Je = none ∧
    (∀ j, k < j → Evol06.alphaSeq N dt Feval Jac alpha0 j = none) ∧
    (∀ (s0 : Iden12.FState q) (m : ℕ) (s : Iden12.FState q),
       Iden12.filterSeq q s0 m = some s →
       (1 - (q.dt / 2) •
         (Iden12.computeEvolutionOperatorJacobians q s.1.1 ((m : ℚ) * q.dt)).1).det = 0 →
       ∀ j, m < j → Iden12.filterSeq q s0 j = none) := by
  have hnone06 : Evol06.computeEvolutionOperator N dt Feval Jac a ((k : ℚ) * dt) = none := by
    simp [Evol06.computeEvolutionOperator, PSD.npLinalgInv_of_det_eq_zero _ h06]
  refine ⟨hnone06, Iden12.computeEvolutionOperator12_none q x t Ja Je h12, ?_, ?_⟩
  · have hsucc : Evol06.alphaSeq N dt Feval Jac alpha0 (k + 1) = none := by
      rw [Evol06.alphaSeq, hk, Option.some_bind, hnone06]
      rfl
    intro j hj
    exact Evol06.alphaSeq_none_propagates N dt Feval Jac alpha0 (k + 1) hsucc j hj
  · intro s0 m s hs hdz j hj
    have hstep : Iden12.filterStep q m s = none := by
      simp only [Iden12.filterStep]
      rw [Iden12.computeEvolutionOperator12_none q s.1.1 ((m : ℚ) * q.dt) _ _ hdz]
      rfl
    have hsucc : Iden12.filterSeq q s0 (m + 1) = none := by
      rw [Iden12.filterSeq, hs, Option.some_bind, hstep]
    exact Iden12.filterSeq_none_propagates q s0 (m + 1) hsucc j hj

/-- Witness for C7: with `dt = 2` and identity Jacobian, `I − (dt/2)·J` is
the zero matrix; the linearizer raises and the run aborts from step 1 on. -/
theorem claim_C7_witness :
    Evol06.alphaSeq 1 2 Wit.f0 Wit.j1 0 0 = some 0 ∧
    Evol06.computeEvolutionOperator 1 2 Wit.f0 Wit.j1 0 (((0 : ℕ) : ℚ) * 2) = none ∧
    Evol06.alphaSeq 1 2 Wit.f0 Wit.j1 0 1 = none := by
  have h06 : ((1 : Matrix (Fin 1) (Fin 1) ℚ) -
      ((2 : ℚ) / 2) • Wit.j1 0 (((0 : ℕ) : ℚ) * 2)).det = 0 := by
    norm_num [Wit.j1, Matrix.det_fin_one, Matrix.sub_apply, Matrix.one_apply,
      Matrix.smul_apply]
  have h12 : ((1 : Matrix (Fin 1) (Fin 1) ℚ) -
      ((Wit.qB).dt / 2) • (1 : Matrix (Fin 1) (Fin 1) ℚ)).det = 0 := by
    norm_num [Wit.qB, Matrix.det_fin_one, Matrix.sub_apply, Matrix.one_apply,
      Matrix.smul_apply]
  have h := claim_C7_singular_linearization_aborts 1 2 Wit.f0 Wit.j1 0 0 0 rfl
    h06 Wit.qB 0 0 1 0 h12
  exact ⟨rfl, h.1, h.2.2.1 1 Nat.one_pos⟩

/-- **C4.** The combined continuity+AR transform is applied consistently to
the mean/state vector and to its covariance: wherever the mean is reduced by
`UT_eta_p` (prior, line 230) or expanded by `U_eta` (posterior, line 306),
the corresponding covariance (lines 203, 231, 308) undergoes the congruence
transform by the *same* matrix — `L·Γ·Lᵀ` with `L` the matrix applied to the
mean — for the prior, the process-noise covariance and every posterior state
produced by the run. -/
theorem claim_C4_congruence_consistency
    (q : Iden12.P) (etaPrior : Fin q.Neta → ℚ)
    (Gp Gw : Matrix (Fin q.Neta) (Fin q.Neta) ℚ)
    (xt : Iden12.StateIdx q → ℚ)
    (G : Matrix (Iden12.StateIdx q) (Iden12.StateIdx q) ℚ) :
    (Iden12.C4.etaTildeCPrior q etaPrior =
       (Iden12.UTetaP q).mulVec (Iden12.C4.etaTildePrior q etaPrior) ∧
     Iden12.C4.GammaEtaTildeCPrior q Gp =
       Iden12.UTetaP q * Iden12.C4.GammaEtaTildePrior q Gp *
         (Iden12.UTetaP q).transpose) ∧
    Iden12.C4.GammaEtaTildeCW q Gw =
      Iden12.UTetaP q * Iden12.C4.GammaEtaTildeW q Gw *
        (Iden12.UTetaP q).transpose ∧
    (Iden12.C4.xEtaOf q xt = q.U.mulVec (Iden12.C4.xCEtaOf q xt) ∧
     Iden12.C4.GammaEtaOf q G = q.U * Iden12.C4.GammaCEtaOf q G * q.U.transpose) := by
  have hT : (Iden12.UTetaP q).transpose = Iden12.UetaP q := by
    rw [Iden12.UTetaP_eq_transpose, Matrix.transpose_transpose]
  refine ⟨⟨rfl, ?_⟩, ?_, rfl, ?_⟩
  · rw [hT, Iden12.C4.GammaEtaTildeCPrior, Matrix.mul_assoc]
  · rw [hT, Iden12.C4.GammaEtaTildeCW, Matrix.mul_assoc]
  · rw [Iden12.C4.GammaEtaOf, Iden12.UTeta, Matrix.mul_assoc]

namespace Wit

/-- `U21` has orthonormal columns. -/
theorem U21_orthonormal : Iden12.IsContinuityU U21 := by
  have : U21.transpose * U21 = 1 := by
    ext i j
    fin_cases i
    fin_cases j
    simp [U21, Matrix.mul_apply, Fin.sum_univ_two, Matrix.one_apply]
  exact this

end Wit

/-- **C5.** The continuity null-space matrix `U` has full column rank with
`UᵀU = I`: the round trip `Uᵀ(Uv) = v` holds for every reduced vector,
`U·mulVec` is injective, `UUᵀ` is an idempotent projection whose image lies
in (and fixes) the continuous subspace spanned by `U`, and the reduced
dimension is `N_eta − (Ne_eta − 1)`. -/
theorem claim_C5_continuity_roundtrip_projection
    (Neta NeEta : ℕ)
    (U : Matrix (Fin Neta) (Fin (Iden12.NcEta Neta NeEta)) ℚ)
    (hU : Iden12.IsContinuityU U) :
    (∀ v, U.transpose.mulVec (U.mulVec v) = v) ∧
    (∀ v, U.mulVec v = 0 → v = 0) ∧
    (U * U.transpose) * (U * U.transpose) = U * U.transpose ∧
    (∀ w, (U * U.transpose).mulVec w = U.mulVec (U.transpose.mulVec w)) ∧
    (∀ v, (U * U.transpose).mulVec (U.mulVec v) = U.mulVec v) ∧
    Iden12.NcEta Neta NeEta = Neta - (NeEta - 1) := by
  have hU' : U.transpose * U = 1 := hU
  have hrt : ∀ v, U.transpose.mulVec (U.mulVec v) = v := by
    intro v
    rw [Matrix.mulVec_mulVec, hU', Matrix.one_mulVec]
  have hfac : ∀ w, (U * U.transpose).mulVec w = U.mulVec (U.transpose.mulVec w) := by
    intro w
    rw [Matrix.mulVec_mulVec]
  refine ⟨hrt, ?_, ?_, hfac, ?_, rfl⟩
  · intro v hv
    have h2 := congrArg (fun w => U.transpose.mulVec w) hv
    simp only [Matrix.mulVec_zero] at h2
    rw [hrt v] at h2
    exact h2
  · calc (U * U.transpose) * (U * U.transpose)
        = U * (U.transpose * U * U.transpose) := by
          rw [Matrix.mul_assoc, ← Matrix.mul_assoc U.transpose U U.transpose]
      _ = U * U.transpose := by rw [hU', Matrix.one_mul]
  · intro v
    rw [hfac, hrt v]

/-- Witness for C5: the two-element, two-element-mesh instance
(`N_eta = 2`, `Ne_eta = 2`, so `Nc_eta = 1`) with the orthonormal column
`U = (1, 0)ᵀ` satisfies `UᵀU = I`, and the reduced dimension equation
holds. -/
theorem claim_C5_witness :
    Iden12.IsContinuityU Wit.U21 ∧ Iden12.NcEta 2 2 = 2 - (2 - 1) :=
  ⟨Wit.U21_orthonormal,
   (claim_C5_continuity_roundtrip_projection 2 2 Wit.U21
     Wit.U21_orthonormal).2.2.2.2.2⟩

/-- **C6.** The VAR(p) transition matrix `A_eta` is block-companion: the AR
coefficient matrices occupy the top block-row and identity blocks the
sub-diagonal, so under `eta_tilde_{k+1} = A_eta·eta_tilde_k` every block
`i ≥ 1` of the new stack equals block `i − 1` of the old stack — by
construction, with no runtime re-checking. -/
theorem claim_C6_var_companion_shift
    (q : Iden12.P) (x : Fin q.p × Fin q.Neta → ℚ) (i : Fin q.p)
    (r : Fin q.Neta) (hi : 1 ≤ (i : ℕ)) :
    (∀ (j : Fin q.p) (s : Fin q.Neta),
        Iden12.Aeta q (Iden12.lag0 q, r) (j, s) = q.etaA j r s) ∧
    (∀ (j : Fin q.p) (s : Fin q.Neta), (i : ℕ) = (j : ℕ) + 1 →
        Iden12.Aeta q (i, r) (j, s) = if r = s then 1 else 0) ∧
    (Iden12.Aeta q).mulVec x (i, r) =
      x (⟨(i : ℕ) - 1, Nat.lt_of_le_of_lt (Nat.sub_le _ _) i.isLt⟩, r) := by
  refine ⟨?_, ?_, Iden12.Aeta_mulVec_shift q x i hi r⟩
  · intro j s
    simp [Iden12.Aeta, Iden12.lag0]
  · intro j s hji
    have hne : ¬((i : ℕ) = 0) := by omega
    simp only [Iden12.Aeta, Matrix.of_apply]
    rw [if_neg hne, if_pos hji]

/-- Witness for C6: in the order-2 bundle `Wit.qC`, lag block 1 after one
application of `A_eta` equals lag block 0 before it. -/
theorem claim_C6_witness :
    1 ≤ (((⟨1, Nat.one_lt_two⟩ : Fin (Wit.qC).p)) : ℕ) ∧
    (Iden12.Aeta Wit.qC).mulVec Wit.xC (⟨1, Nat.one_lt_two⟩, ⟨0, Nat.one_pos⟩) =
      Wit.xC (⟨0, Nat.zero_lt_two⟩, ⟨0, Nat.one_pos⟩) :=
  ⟨Nat.le_refl 1,
   (claim_C6_var_companion_shift Wit.qC Wit.xC ⟨1, Nat.one_lt_two⟩ ⟨0, Nat.one_pos⟩
     (Nat.le_refl 1)).2.2⟩

/-- **C8.** The filter's process-noise covariance object is mutated in place
across loop iterations: the alpha block written into `model.Gamma_w` at step
`k` is the alpha block left by step `k−1` plus
`(dt²/4)·M·(J_eta·Gamma_eta·J_etaᵀ)·Mᵀ` (with `Gamma_eta` the expanded lag-0
eta block, which itself is never mutated), so the eta-induced term
accumulates over the steps. -/
theorem claim_C8_gamma_w_accumulates_in_place
    (q : Iden12.P) (s0 : Iden12.FState q) (k : ℕ) (s : Iden12.FState q)
    (h0 : Iden12.filterSeq q s0 k = some s)
    (hdet : (1 - (q.dt / 2) •
        (Iden12.computeEvolutionOperatorJacobians q s.1.1 ((k : ℚ) * q.dt)).1).det ≠ 0) :
    Iden12.computeEvolutionOperatorAlphaCovariance q s.2.2
        (Iden12.computeEvolutionOperatorJacobians q s.1.1 ((k : ℚ) * q.dt)).1
        (Iden12.computeEvolutionOperatorJacobians q s.1.1 ((k : ℚ) * q.dt)).2 =
      some (Iden12.alphaBlockOf q s.2.2 +
            (q.dt ^ 2 / 4) •
              ((1 - (q.dt / 2) •
                  (Iden12.computeEvolutionOperatorJacobians q s.1.1 ((k : ℚ) * q.dt)).1)⁻¹ *
                (((Iden12.computeEvolutionOperatorJacobians q s.1.1 ((k : ℚ) * q.dt)).2 *
                    ((q.U * (Iden12.C4.GammaCEtaOf q s.2.2 * Iden12.UTeta q)) *
                      ((Iden12.computeEvolutionOperatorJacobians q s.1.1
                          ((k : ℚ) * q.dt)).2).transpose)) *
                  ((1 - (q.dt / 2) •
                      (Iden12.computeEvolutionOperatorJacobians q s.1.1
                        ((k : ℚ) * q.dt)).1)⁻¹).transpose))) ∧
    (∀ s', Iden12.filterStep q k s = some s' →
       ∃ GA, Iden12.computeEvolutionOperatorAlphaCovariance q s.2.2
               (Iden12.computeEvolutionOperatorJacobians q s.1.1 ((k : ℚ) * q.dt)).1
               (Iden12.computeEvolutionOperatorJacobians q s.1.1 ((k : ℚ) * q.dt)).2 =
                 some GA ∧
             s'.2.2 = Iden12.setAlphaBlock q s.2.2 GA ∧
             Iden12.alphaBlockOf q s'.2.2 = GA) ∧
    (∀ (ii : Fin q.p × Fin q.Nc) (j : Iden12.StateIdx q),
        s.2.2 (Sum.inr ii) j = s0.2.2 (Sum.inr ii) j) ∧
    (∀ (i : Iden12.StateIdx q) (jj : Fin q.p × Fin q.Nc),
        s.2.2 i (Sum.inr jj) = s0.2.2 i (Sum.inr jj)) := by
  refine ⟨Iden12.computeEvolutionOperatorAlphaCovariance_eq_some q s.2.2 _ _ hdet,
      ?_, (Iden12.filterSeq_GW_offAlpha q s0 k s h0).1,
      (Iden12.filterSeq_GW_offAlpha q s0 k s h0).2⟩
  intro s' hs'
  obtain ⟨Fb, GA, up, hFb, hGA, hup, rfl⟩ :=
    Iden12.filterStep_some_elim q k s s' hs'
  exact ⟨GA, hGA, rfl, rfl⟩

/-- Witness for C8: at the trivial bundle `Wit.qA` after zero steps, the
covariance update succeeds and returns the stated accumulation. -/
theorem claim_C8_witness :
    Iden12.filterSeq Wit.qA Wit.s00 0 = some Wit.s00 ∧
    Iden12.computeEvolutionOperatorAlphaCovariance Wit.qA Wit.s00.2.2
        (Iden12.computeEvolutionOperatorJacobians Wit.qA Wit.s00.1.1
          (((0 : ℕ) : ℚ) * (Wit.qA).dt)).1
        (Iden12.computeEvolutionOperatorJacobians Wit.qA Wit.s00.1.1
          (((0 : ℕ) : ℚ) * (Wit.qA).dt)).2 =
      some (Iden12.alphaBlockOf Wit.qA Wit.s00.2.2 +
            ((Wit.qA).dt ^ 2 / 4) •
              ((1 - ((Wit.qA).dt / 2) •
                  (Iden12.computeEvolutionOperatorJacobians Wit.qA Wit.s00.1.1
                    (((0 : ℕ) : ℚ) * (Wit.qA).dt)).1)⁻¹ *
                (((Iden12.computeEvolutionOperatorJacobians Wit.qA Wit.s00.1.1
                      (((0 : ℕ) : ℚ) * (Wit.qA).dt)).2 *
                    (((Wit.qA).U * (Iden12.C4.GammaCEtaOf Wit.qA Wit.s00.2.2 *
                        Iden12.UTeta Wit.qA)) *
                      ((Iden12.computeEvolutionOperatorJacobians Wit.qA Wit.s00.1.1
                          (((0 : ℕ) : ℚ) * (Wit.qA).dt)).2).transpose)) *
                  ((1 - ((Wit.qA).dt / 2) •
                      (Iden12.computeEvolutionOperatorJacobians Wit.qA Wit.s00.1.1
                        (((0 : ℕ) : ℚ) * (Wit.qA).dt)).1)⁻¹).transpose))) :=
  ⟨rfl,
   (claim_C8_gamma_w_accumulates_in_place Wit.qA Wit.s00 0 Wit.s00 rfl
     (by simp [Iden12.computeEvolutionOperatorJacobians, Wit.qA])).1⟩

/-- **C10.** Every step's output depends deterministically on its inputs:
two runs with identical initial coefficients, rate/evolution functions,
Jacobians, observations and discretization parameters produce identical
trajectories at every step, for both the time-evolution loop and the filter
loop. -/
theorem claim_C10_deterministic_trajectories
    (N : ℕ) (dt : ℚ)
    (Feval1 Feval2 : (Fin N → ℚ) → ℚ → (Fin N → ℚ))
    (Jac1 Jac2 : (Fin N → ℚ) → ℚ → Matrix (Fin N) (Fin N) ℚ)
    (a1 a2 : Fin N → ℚ)
    (hF : Feval1 = Feval2) (hJ : Jac1 = Jac2) (ha : a1 = a2)
    (q : Iden12.P) (s1 s2 : Iden12.FState q) (hs : s1 = s2) :
    (∀ k, Evol06.alphaSeq N dt Feval1 Jac1 a1 k =
          Evol06.alphaSeq N dt Feval2 Jac2 a2 k) ∧
    (∀ k, Iden12.filterSeq q s1 k = Iden12.filterSeq q s2 k) := by
  subst hF
  subst hJ
  subst ha
  subst hs
  exact ⟨fun _ => rfl, fun _ => rfl⟩

/-- Witness for C10: two syntactically identical trivial runs agree after
two steps. -/
theorem claim_C10_witness :
    Evol06.alphaSeq 1 1 Wit.f0 Wit.j0 0 2 = Evol06.alphaSeq 1 1 Wit.f0 Wit.j0 0 2 ∧
    Iden12.filterSeq Wit.qA Wit.s00 2 = Iden12.filterSeq Wit.qA Wit.s00 2 := by
  have h := claim_C10_deterministic_trajectories 1 1 Wit.f0 Wit.f0 Wit.j0 Wit.j0
    0 0 rfl rfl rfl Wit.qA Wit.s00 Wit.s00 rfl
  exact ⟨h.1 2, h.2 2⟩
